import Mathlib

/-!
# Admission filter of `com.geoffjay.admin`

A shallow embedding of `main.go` (the IP allowlist middleware, `isAllowedIP`,
`isPrivateNetwork`) and of the `habits` migration, together with the parts of
the Go standard library `net` / `net/netip` packages that the middleware
calls (`ParseIP`, `ParseCIDR`, `IPNet.Contains`).

Go strings are modelled by Lean strings and scanned character by character;
every character the Go parsers accept is ASCII, so a scan over characters
and a scan over bytes accept the same strings.
-/

namespace Admin

/-! ## Fixed-size byte arrays and byte slices -/

/-- Go array `[n]byte`: a list of bytes together with its length. -/
structure ByteArr (n : Nat) where
  data : List Nat
  size : data.length = n

/-- The zero value of `[n]byte`. -/
def ByteArr.zero (n : Nat) : ByteArr n :=
  ⟨List.replicate n 0, by simp⟩

/-- Indexed write `a[i] = v`. -/
def ByteArr.set {n : Nat} (a : ByteArr n) (i v : Nat) : ByteArr n :=
  ⟨a.data.set i v, by simp [a.size]⟩

/-- Indexed read `a[i]`. -/
def ByteArr.get {n : Nat} (a : ByteArr n) (i : Nat) : Nat :=
  a.data.getD i 0

/-- Go `net.IP`, a byte slice; the nil slice is the empty list. -/
abbrev IP := List Nat

/-- Go `net.IPMask`, a byte slice. -/
abbrev IPMask := List Nat

/-- Go `net.IPNet`. -/
structure IPNet where
  IP : List Nat
  Mask : List Nat
  deriving DecidableEq, Repr

/-- Go `net.ParseError`. -/
structure ParseError where
  Typ : String
  Text : String
  deriving DecidableEq, Repr

/-- Method `(*ParseError).Error`. -/
def ParseError.Error (e : ParseError) : String :=
  "invalid " ++ e.Typ ++ ": " ++ e.Text

/-! ## `net/netip`: textual address parsing -/

/-- Go `netip.Addr` as produced by `ParseAddr`: an IPv4 address, or an IPv6
address with its zone. -/
inductive Addr where
  | v4 (fields : ByteArr 4)
  | v6 (ip : ByteArr 16) (zone : List Char)

/-- Method `Addr.BitLen`. -/
def Addr.BitLen : Addr → Nat
  | .v4 _ => 32
  | .v6 _ _ => 128

/-- Method `Addr.Zone`. -/
def Addr.Zone : Addr → List Char
  | .v4 _ => []
  | .v6 _ z => z

/-- The twelve bytes `::ffff:0:0/96` that precede an IPv4 address mapped into
IPv6. -/
def v4InV6Pfx : List Nat :=
  [0, 0, 0, 0, 0, 0, 0, 0, 0, 0, 0xff, 0xff]

/-- Method `Addr.As16`. -/
def Addr.As16 : Addr → ByteArr 16
  | .v4 f => ⟨v4InV6Pfx ++ f.data, by simp [v4InV6Pfx, f.size]⟩
  | .v6 ip _ => ip

/-- Loop of `parseIPv4Fields`: `i` is the index of the character `c` at the
head of the remaining input and `prevDot` tells whether `s[i-1] == '.'`. -/
def parseIPv4Fields.loop :
    List Char → (i : Nat) → (prevDot : Bool) → (val pos digLen : Nat) →
      ByteArr 4 → Option (ByteArr 4)
  | [], _, _, val, pos, _, fields =>
    if pos < 3 then none else some (fields.set 3 (val % 256))
  | c :: rest, i, prevDot, val, pos, digLen, fields =>
    if '0' ≤ c ∧ c ≤ '9' then
      if digLen = 1 ∧ val = 0 then none
      else
        let val := val * 10 + (c.toNat - '0'.toNat)
        if val > 255 then none
        else parseIPv4Fields.loop rest (i + 1) false val pos (digLen + 1) fields
    else if c = '.' then
      if i = 0 ∨ rest.isEmpty ∨ prevDot then none
      else if pos = 3 then none
      else parseIPv4Fields.loop rest (i + 1) true 0 (pos + 1) 0 (fields.set pos (val % 256))
    else none

/-- Go `netip.parseIPv4Fields` on the whole of `s`. -/
def parseIPv4Fields (s : List Char) : Option (ByteArr 4) :=
  parseIPv4Fields.loop s 0 false 0 0 0 (ByteArr.zero 4)

/-- Go `netip.parseIPv4`. -/
def parseIPv4 (s : List Char) : Option Addr :=
  (parseIPv4Fields s).map Addr.v4

/-- Value of a hexadecimal digit, if the character is one. -/
def hexVal (c : Char) : Option Nat :=
  if '0' ≤ c ∧ c ≤ '9' then some (c.toNat - '0'.toNat)
  else if 'a' ≤ c ∧ c ≤ 'f' then some (c.toNat - 'a'.toNat + 10)
  else if 'A' ≤ c ∧ c ≤ 'F' then some (c.toNat - 'A'.toNat + 10)
  else none

/-- Inner loop of `parseIPv6` reading one group of hexadecimal digits: returns
the number `off` of digits read, the accumulated value and the rest of the
input, or `none` when the group has more than four digits or overflows. -/
def parseHexGroup : List Char → (off acc : Nat) → Option (Nat × Nat × List Char)
  | [], off, acc => some (off, acc, [])
  | c :: rest, off, acc =>
    match hexVal c with
    | none => some (off, acc, c :: rest)
    | some d =>
      let acc := acc * 16 + d
      if off > 3 then none
      else if acc > 0xffff then none
      else parseHexGroup rest (off + 1) acc

/-- State of the main loop of `parseIPv6`: remaining input `s`, write position
`i`, the address bytes and the position of the ellipsis (`none` for `-1`). -/
structure V6State where
  s : List Char
  i : Nat
  ip : ByteArr 16
  ellipsis : Option Nat

/-- Main loop `for i < 16` of `parseIPv6`. The loop runs on fuel; every
iteration advances `i` by at least two, so the sixteen units `parseIPv6`
gives are never used up (`parseIPv6_loop_fuel`). -/
def parseIPv6.loop : Nat → V6State → Option V6State
  | 0, st => if st.i < 16 then none else some st
  | fuel + 1, st =>
    if st.i < 16 then
      match parseHexGroup st.s 0 0 with
      | none => none
      | some (off, acc, rest) =>
        if off = 0 then none
        else if rest.head? = some '.' then
          if st.ellipsis.isNone ∧ st.i ≠ 12 then none
          else if st.i + 4 > 16 then none
          else
            match parseIPv4Fields st.s with
            | none => none
            | some f =>
              let ip := (((st.ip.set st.i (f.get 0)).set (st.i + 1) (f.get 1)).set
                (st.i + 2) (f.get 2)).set (st.i + 3) (f.get 3)
              some ⟨[], st.i + 4, ip, st.ellipsis⟩
        else
          let ip := (st.ip.set st.i ((acc / 256) % 256)).set (st.i + 1) (acc % 256)
          let i := st.i + 2
          match rest with
          | [] => some ⟨[], i, ip, st.ellipsis⟩
          | c :: s1 =>
            if c ≠ ':' then none
            else
              match s1 with
              | [] => none
              | c1 :: s2 =>
                if c1 = ':' then
                  if st.ellipsis.isSome then none
                  else if s2.isEmpty then some ⟨[], i, ip, some i⟩
                  else parseIPv6.loop fuel ⟨s2, i, ip, some i⟩
                else parseIPv6.loop fuel ⟨s1, i, ip, st.ellipsis⟩
    else some st

/-- Expansion of the ellipsis at the end of `parseIPv6`: the bytes in
`[ellipsis, i)` move up by `n = 16 - i` (highest index first) and the gap is
cleared. -/
def expandEllipsis (ip : ByteArr 16) (i ellipsis : Nat) : ByteArr 16 :=
  let n := 16 - i
  let moved := ((List.range (i - ellipsis)).reverse.map (· + ellipsis)).foldl
    (fun a j => a.set (j + n) (a.get j)) ip
  (List.range n).foldl (fun a k => a.set (ellipsis + k) 0) moved

/-- Go `netip.parseIPv6`. -/
def parseIPv6 (s0 : List Char) : Option Addr :=
  let s := s0.takeWhile (· ≠ '%')
  let zone := (s0.dropWhile (· ≠ '%')).drop 1
  if '%' ∈ s0 ∧ zone.isEmpty then none
  else
    let start : Option V6State :=
      match s with
      | ':' :: ':' :: rest => some ⟨rest, 0, ByteArr.zero 16, some 0⟩
      | _ => some ⟨s, 0, ByteArr.zero 16, none⟩
    match start with
    | none => none
    | some st0 =>
      if st0.ellipsis.isSome ∧ st0.s.isEmpty then some (Addr.v6 (ByteArr.zero 16) zone)
      else
        match parseIPv6.loop 16 st0 with
        | none => none
        | some st =>
          if ¬ st.s.isEmpty then none
          else if st.i < 16 then
            match st.ellipsis with
            | none => none
            | some e => some (Addr.v6 (expandEllipsis st.ip st.i e) zone)
          else if st.ellipsis.isSome then none
          else some (Addr.v6 st.ip zone)

/-- Scan of `ParseAddr` for the first of `.`, `:` and `%` in `s`. -/
def ParseAddr.scan (s : List Char) : List Char → Option Addr
  | [] => none
  | c :: rest =>
    if c = '.' then parseIPv4 s
    else if c = ':' then parseIPv6 s
    else if c = '%' then none
    else ParseAddr.scan s rest

/-- Go `netip.ParseAddr`. -/
def ParseAddr (s : List Char) : Option Addr :=
  ParseAddr.scan s s

/-! ## `net`: `ParseIP`, `ParseCIDR`, `IPNet.Contains` -/

/-- Go `net.ParseIP`: the sixteen-byte form of the address, or nil. -/
def ParseIP (s : String) : IP :=
  match ParseAddr s.toList with
  | some a => if a.Zone.isEmpty then a.As16.data else []
  | none => []

/-- Go `net.isZeros`. -/
def isZeros (p : List Nat) : Bool :=
  p.all (· == 0)

/-- Go `net.allFF`. -/
def allFF (b : List Nat) : Bool :=
  b.all (· == 0xff)

/-- Method `IP.To4`: the four-byte form of an IPv4 address, or nil. -/
def To4 (ip : IP) : IP :=
  if ip.length = 4 then ip
  else if ip.length = 16 ∧ isZeros (ip.take 10) ∧ ip.getD 10 0 = 0xff ∧ ip.getD 11 0 = 0xff then
    (ip.drop 12).take 4
  else []

/-- Method `IP.Mask`. -/
def IPMask.apply (ip : IP) (mask : IPMask) : IP :=
  let mask := if mask.length = 16 ∧ ip.length = 4 ∧ allFF (mask.take 12) then mask.drop 12 else mask
  let ip := if mask.length = 4 ∧ ip.length = 16 ∧ ip.take 12 = v4InV6Pfx then ip.drop 12 else ip
  let n := ip.length
  if n ≠ mask.length then []
  else (List.range n).map (fun i => ip.getD i 0 &&& mask.getD i 0)

/-- Loop of `CIDRMask` over the `l` bytes still to fill, with `n` ones left. -/
def CIDRMask.loop : (l n : Nat) → IPMask
  | 0, _ => []
  | l + 1, n =>
    if n ≥ 8 then 0xff :: CIDRMask.loop l (n - 8)
    else (0xff - (0xff >>> n)) :: CIDRMask.loop l 0

/-- Go `net.CIDRMask`. -/
def CIDRMask (ones bits : Nat) : IPMask :=
  if bits ≠ 8 * 4 ∧ bits ≠ 8 * 16 then []
  else if ones > bits then []
  else CIDRMask.loop (bits / 8) ones

/-- Go `net.dtoi`: decimal to integer; returns the value, the number of
characters consumed and whether a number was read. -/
def dtoi.loop : List Char → (n i : Nat) → Nat × Nat × Bool
  | [], n, i => if i = 0 then (0, 0, false) else (n, i, true)
  | c :: rest, n, i =>
    if '0' ≤ c ∧ c ≤ '9' then
      let n := n * 10 + (c.toNat - '0'.toNat)
      if n ≥ 0xFFFFFF then (0xFFFFFF, i, false)
      else dtoi.loop rest n (i + 1)
    else if i = 0 then (0, 0, false) else (n, i, true)

/-- Go `net.dtoi`. -/
def dtoi (s : List Char) : Nat × Nat × Bool :=
  dtoi.loop s 0 0

/-- Go `net.networkNumberAndMask`. -/
def networkNumberAndMask (n : IPNet) : IP × IPMask :=
  let ip4 := To4 n.IP
  if ip4 = [] ∧ n.IP.length ≠ 16 then ([], [])
  else
    let ip := if ip4 = [] then n.IP else ip4
    if n.Mask.length = 4 then
      if ip.length ≠ 4 then ([], []) else (ip, n.Mask)
    else if n.Mask.length = 16 then
      if ip.length = 4 then (ip, n.Mask.drop 12) else (ip, n.Mask)
    else ([], [])

/-- Method `(*IPNet).Contains`. -/
def IPNet.Contains (n : IPNet) (ip : List Nat) : Bool :=
  let nm := networkNumberAndMask n
  let ip := if To4 ip = [] then ip else To4 ip
  let l := ip.length
  if l ≠ nm.1.length then false
  else (List.range l).all (fun i => nm.1.getD i 0 &&& nm.2.getD i 0 == ip.getD i 0 &&& nm.2.getD i 0)

/-- Go `net.ParseCIDR`, returning the network only (the middleware discards
the address). -/
def ParseCIDR (s : String) : Except ParseError IPNet :=
  let cs := s.toList
  if '/' ∉ cs then .error ⟨"CIDR address", s⟩
  else
    let addr := cs.takeWhile (· ≠ '/')
    let mask := (cs.dropWhile (· ≠ '/')).drop 1
    match ParseAddr addr with
    | none => .error ⟨"CIDR address", s⟩
    | some ipAddr =>
      if ¬ ipAddr.Zone.isEmpty then .error ⟨"CIDR address", s⟩
      else
        let r := dtoi mask
        if ¬ r.2.2 ∨ r.2.1 ≠ mask.length ∨ r.1 > ipAddr.BitLen then .error ⟨"CIDR address", s⟩
        else
          let m := CIDRMask r.1 ipAddr.BitLen
          .ok ⟨IPMask.apply ipAddr.As16.data m, m⟩

/-! ## `main.go`: the admission filter -/

/-- The part of `*core.RequestEvent` the middleware reads: the result of
`RealIP()` and `Request.URL.Path`. -/
structure RequestEvent where
  RealIP : String
  Path : String

/-- Process environment: a variable is unset (`none`) or has a value. -/
abbrev Env := String → Option String

/-- Go `os.Getenv`: the value of the variable, empty when it is unset. -/
def Getenv (env : Env) (key : String) : String :=
  (env key).getD ""

/-- The standard logger's output, one entry per `log.Printf` call, oldest
first. -/
abbrev Log := List String

/-- The table `privateRanges` of `isPrivateNetwork`. -/
def privateRanges : List String :=
  ["10.0.0.0/8", "172.16.0.0/12", "192.168.0.0/16", "fc00::/7"]

/-- Loop `for _, cidr := range privateRanges` of `isPrivateNetwork`. The
error of `ParseCIDR` is discarded by the source, so a range that fails to
parse gives a nil `*IPNet` whose `Contains` panics (`none`). -/
def isPrivateNetwork.loop : List String → IP → Option Bool
  | [], _ => some false
  | cidr :: rest, parsedIP =>
    match ParseCIDR cidr with
    | .error _ => none
    | .ok privNet =>
      if privNet.Contains parsedIP then some true
      else isPrivateNetwork.loop rest parsedIP

/-- Function `isPrivateNetwork` of `main.go`; `none` stands for a panic. -/
def isPrivateNetwork (ip : String) : Option Bool :=
  let parsedIP := ParseIP ip
  if parsedIP = [] then some false
  else
    match ParseCIDR "fdaa::/48" with
    | .error _ => none
    | .ok flyNet =>
      if flyNet.Contains parsedIP then some true
      else isPrivateNetwork.loop privateRanges parsedIP

/-- Function `isAllowedIP` of `main.go`: the decision together with the log
after the call; `none` stands for a panic. -/
def isAllowedIP (env : Env) (e : RequestEvent) (log : Log) : Option (Bool × Log) :=
  let clientIP := e.RealIP
  match isPrivateNetwork clientIP with
  | none => none
  | some true => some (true, log)
  | some false =>
    let allowedHomeIP := Getenv env "ALLOWED_HOME_IP"
    if allowedHomeIP = "" then some (false, log)
    else if '/' ∈ allowedHomeIP.toList then
      match ParseCIDR allowedHomeIP with
      | .error err => some (false, log ++ ["Invalid ALLOWED_HOME_IP CIDR: " ++ err.Error])
      | .ok allowedNet =>
        let ip := ParseIP clientIP
        some (allowedNet.Contains ip, log)
    else some (decide (clientIP = allowedHomeIP), log)

/-- The value returned by a handler: Go `error`, nil or an error. The error
built by the framework call `re.ForbiddenError(message, data)` (HTTP 403) is
recorded with its two arguments; `data` is `none` for nil. -/
inductive HandlerError where
  | ForbiddenError (message : String) (data : Option String)
  | other (err : String)
  deriving DecidableEq, Repr

/-- Result of running a handler from a given log: the returned `error` and
the log afterwards; `none` stands for a panic. -/
abbrev Outcome := Option (Option HandlerError × Log)

/-- The function bound to the router in `main`: `next` is the rest of the
chain, what `re.Next()` runs. -/
def admissionMiddleware (env : Env) (re : RequestEvent) (next : Log → Outcome)
    (log : Log) : Outcome :=
  match isAllowedIP env re log with
  | none => none
  | some (false, log1) =>
    some (some (HandlerError.ForbiddenError "Access denied from your IP address" none),
      log1 ++ ["Access denied from IP: " ++ re.RealIP ++ ", Path: " ++ re.Path])
  | some (true, log1) => next log1

/-! ## `migrations/1766960500_create_habits.go` -/

/-- Framework struct `core.TextField`, with the options the migrations set;
an option left out has Go's zero value. -/
structure TextField where
  Name : String
  Required : Bool := false
  Min : Nat := 0
  Max : Nat := 0
  deriving DecidableEq, Repr

/-- Framework struct `core.SelectField`. -/
structure SelectField where
  Name : String
  Required : Bool := false
  Values : List String := []
  deriving DecidableEq, Repr

/-- Framework struct `core.NumberField`. -/
structure NumberField where
  Name : String
  Required : Bool := false
  deriving DecidableEq, Repr

/-- Framework struct `core.RelationField`. -/
structure RelationField where
  Name : String
  Required : Bool := false
  CollectionId : String := ""
  CascadeDelete : Bool := false
  deriving DecidableEq, Repr

/-- Framework interface `core.Field`, for the four kinds of field the
migration declares. -/
inductive Field where
  | text (f : TextField)
  | select (f : SelectField)
  | number (f : NumberField)
  | relation (f : RelationField)
  deriving DecidableEq, Repr

/-- Method `Type()` of the framework's fields: the type name a collection
reports for the field. -/
def Field.Typ : Field → String
  | .text _ => "text"
  | .select _ => "select"
  | .number _ => "number"
  | .relation _ => "relation"

/-- Method `GetName()`. -/
def Field.GetName : Field → String
  | .text f => f.Name
  | .select f => f.Name
  | .number f => f.Name
  | .relation f => f.Name

/-- The option `Required` of the field. -/
def Field.Required : Field → Bool
  | .text f => f.Required
  | .select f => f.Required
  | .number f => f.Required
  | .relation f => f.Required

/-- Method `FieldsList.Add` of the framework for one field without an explicit
id: an existing field of the same non-empty name is replaced in place,
otherwise the field is appended. -/
def FieldsList.Add : List Field → Field → List Field
  | [], f => [f]
  | g :: rest, f =>
    if f.GetName ≠ "" ∧ g.GetName = f.GetName then f :: rest
    else g :: FieldsList.Add rest f

/-- A framework collection: name, fields and the five access rules. -/
structure Collection where
  Name : String
  Fields : List Field
  ListRule : Option String := none
  ViewRule : Option String := none
  CreateRule : Option String := none
  UpdateRule : Option String := none
  DeleteRule : Option String := none
  deriving DecidableEq, Repr

/-- Framework call `core.NewBaseCollection(name)`: a collection of that name
holding the framework's default fields `defaults`. -/
def NewBaseCollection (defaults : List Field) (name : String) : Collection :=
  { Name := name, Fields := defaults }

/-- Helper `ptrStr` of the migration. -/
def ptrStr (s : String) : Option String :=
  some s

/-- The collection the up step of the habits migration builds before saving
it. -/
def habitsCollection (defaults : List Field) : Collection :=
  let collection := NewBaseCollection defaults "habits"
  let fields := FieldsList.Add collection.Fields
    (.text { Name := "name", Required := true, Min := 1, Max := 255 })
  let fields := FieldsList.Add fields
    (.text { Name := "description", Required := false })
  let fields := FieldsList.Add fields
    (.select { Name := "type", Required := true, Values := ["good", "bad"] })
  let fields := FieldsList.Add fields
    (.number { Name := "points", Required := false })
  let fields := FieldsList.Add fields
    (.relation
      { Name := "userId", Required := true,
        CollectionId := "_pb_users_auth_", CascadeDelete := true })
  { collection with
    Fields := fields
    ListRule := ptrStr "userId = @request.auth.id"
    ViewRule := ptrStr "userId = @request.auth.id"
    CreateRule := ptrStr "@request.auth.id != \"\""
    UpdateRule := ptrStr "userId = @request.auth.id"
    DeleteRule := ptrStr "userId = @request.auth.id" }

/-- The up step registered by the habits migration: `app.Save(collection)`,
where `Save` is the framework's save operation of the running app. -/
def habitsUp {ρ : Type} (defaults : List Field) (Save : Collection → ρ) : ρ :=
  Save (habitsCollection defaults)

/-! ## The private-network table in parsed form -/

/-- The network `fdaa::/48`. -/
def netFdaa : IPNet :=
  ⟨[0xfd, 0xaa, 0, 0, 0, 0, 0, 0, 0, 0, 0, 0, 0, 0, 0, 0],
    [0xff, 0xff, 0xff, 0xff, 0xff, 0xff, 0, 0, 0, 0, 0, 0, 0, 0, 0, 0]⟩

/-- The network `10.0.0.0/8`. -/
def net10 : IPNet :=
  ⟨[10, 0, 0, 0], [0xff, 0, 0, 0]⟩

/-- The network `172.16.0.0/12`. -/
def net172 : IPNet :=
  ⟨[172, 16, 0, 0], [0xff, 0xf0, 0, 0]⟩

/-- The network `192.168.0.0/16`. -/
def net192 : IPNet :=
  ⟨[192, 168, 0, 0], [0xff, 0xff, 0, 0]⟩

/-- The network `fc00::/7`. -/
def netFc00 : IPNet :=
  ⟨[0xfc, 0, 0, 0, 0, 0, 0, 0, 0, 0, 0, 0, 0, 0, 0, 0],
    [0xfe, 0, 0, 0, 0, 0, 0, 0, 0, 0, 0, 0, 0, 0, 0, 0]⟩

/-- The five networks `isPrivateNetwork` tests, in the order of the tests. -/
def privateTable : List IPNet :=
  [netFdaa, net10, net172, net192, netFc00]

/-! ## Vocabulary of the statements -/

/-- An environment in which `ALLOWED_HOME_IP` is `v` (`none` for unset) and
every other variable is unset. -/
def envWith (v : Option String) : Env :=
  fun key => if key = "ALLOWED_HOME_IP" then v else none

/-- The form of an address that `Contains` compares with the network: the
four-byte form when the address has one, the address itself otherwise. -/
def normIP (ip : IP) : IP :=
  if To4 ip = [] then ip else To4 ip

/-- Value of a byte string read as a big-endian number. -/
def beValue (bs : List Nat) : Nat :=
  bs.foldl (fun v b => v * 256 + b) 0

/-- CIDR membership stated arithmetically: the address has as many bytes as
the base address of the range, and the two numbers agree on their `ones`
leading bits. -/
def inRange (base : List Nat) (ones : Nat) (ip : List Nat) : Prop :=
  ip.length = base.length ∧
    beValue ip / 2 ^ (8 * base.length - ones) = beValue base / 2 ^ (8 * base.length - ones)

/-- Membership in `inRange` is decidable. -/
instance inRange.decidable (base : List Nat) (ones : Nat) (ip : List Nat) :
    Decidable (inRange base ones ip) :=
  inferInstanceAs (Decidable (_ ∧ _))

/-- The address, in the sixteen-byte form `ParseIP` returns, lies in one of
the five ranges of the private-network table. An IPv4 address `a.b.c.d` is
the sixteen bytes `::ffff:a.b.c.d`, whose last four bytes are compared with
the IPv4 ranges. -/
def inPrivateRanges (ip : IP) : Prop :=
  (ip.take 12 = v4InV6Pfx ∧
    (inRange [10, 0, 0, 0] 8 (ip.drop 12) ∨ inRange [172, 16, 0, 0] 12 (ip.drop 12) ∨
      inRange [192, 168, 0, 0] 16 (ip.drop 12))) ∨
  inRange [0xfd, 0xaa, 0, 0, 0, 0, 0, 0, 0, 0, 0, 0, 0, 0, 0, 0] 48 ip ∨
  inRange [0xfc, 0, 0, 0, 0, 0, 0, 0, 0, 0, 0, 0, 0, 0, 0, 0] 7 ip

/-- Membership in `inPrivateRanges` is decidable. -/
instance inPrivateRanges.decidable (ip : IP) : Decidable (inPrivateRanges ip) :=
  inferInstanceAs (Decidable (_ ∨ _))

/-- The text `part` occurs in `line`. -/
def occursIn (part line : String) : Prop :=
  ∃ pre post : String, line = pre ++ part ++ post

/-- The entry the middleware logs when it denies a request. -/
def denialLine (re : RequestEvent) : String :=
  "Access denied from IP: " ++ re.RealIP ++ ", Path: " ++ re.Path

/-- The configuration-error entry `isAllowedIP` logs for a value of
`ALLOWED_HOME_IP` that is not a CIDR range. -/
def configErrorLine (allowed : String) : String :=
  "Invalid ALLOWED_HOME_IP CIDR: " ++ "invalid CIDR address: " ++ allowed

/-! ## Facts about the `net` model -/

theorem ParseCIDR_fdaa : ParseCIDR "fdaa::/48" = .ok netFdaa := by
  rfl

theorem ParseCIDR_10 : ParseCIDR "10.0.0.0/8" = .ok net10 := by
  rfl

theorem ParseCIDR_172 : ParseCIDR "172.16.0.0/12" = .ok net172 := by
  rfl

theorem ParseCIDR_192 : ParseCIDR "192.168.0.0/16" = .ok net192 := by
  rfl

theorem ParseCIDR_fc00 : ParseCIDR "fc00::/7" = .ok netFc00 := by
  rfl

theorem CIDRMask_loop_length (l n : Nat) : (CIDRMask.loop l n).length = l := by
  induction l generalizing n with
  | zero => rfl
  | succ l ih =>
    unfold CIDRMask.loop
    split <;> simp [ih]

theorem CIDRMask_length (ones bits : Nat) (hb : bits = 32 ∨ bits = 128) (ho : ones ≤ bits) :
    (CIDRMask ones bits).length = bits / 8 := by
  unfold CIDRMask
  rcases hb with rfl | rfl
  · simp [Nat.not_lt.mpr ho, CIDRMask_loop_length]
  · simp [Nat.not_lt.mpr ho, CIDRMask_loop_length]

theorem IPMask_apply_length_v4 (f : List Nat) (m : List Nat) (hf : f.length = 4)
    (hm : m.length = 4) : (IPMask.apply (v4InV6Pfx ++ f) m).length = 4 := by
  unfold IPMask.apply
  simp [hm, hf, v4InV6Pfx]

theorem IPMask_apply_length_v6 (ip : List Nat) (m : List Nat) (hf : ip.length = 16)
    (hm : m.length = 16) : (IPMask.apply ip m).length = 16 := by
  unfold IPMask.apply
  simp [hm, hf]

theorem ParseCIDR_shape (s : String) (n : IPNet) (h : ParseCIDR s = .ok n) :
    (n.IP.length = 4 ∧ n.Mask.length = 4) ∨ (n.IP.length = 16 ∧ n.Mask.length = 16) := by
  unfold ParseCIDR at h
  simp only at h
  split at h
  · cases h
  · split at h
    · cases h
    · rename_i ipAddr _
      split at h
      · cases h
      · split at h
        · cases h
        · rename_i hz hr
          simp only [not_or, not_not, Nat.not_lt] at hr
          injection h with h
          subst h
          generalize (dtoi ((s.toList.dropWhile (· ≠ '/')).drop 1)).1 = r at hr
          cases ipAddr with
          | v4 f =>
            simp only [Addr.BitLen, Addr.As16] at hr ⊢
            have hm4 : (CIDRMask r 32).length = 4 := by
              rw [CIDRMask_length r 32 (Or.inl rfl) hr.2.2]
            left
            exact ⟨IPMask_apply_length_v4 _ _ f.size hm4, hm4⟩
          | v6 ip z =>
            simp only [Addr.BitLen, Addr.As16] at hr ⊢
            have hm16 : (CIDRMask r 128).length = 16 := by
              rw [CIDRMask_length r 128 (Or.inr rfl) hr.2.2]
            right
            exact ⟨IPMask_apply_length_v6 _ _ ip.size hm16, hm16⟩

theorem To4_length (ip : List Nat) : (To4 ip).length = 4 ∨ To4 ip = [] := by
  unfold To4
  split
  · left; assumption
  · split
    · rename_i h
      left
      simp [h.1]
    · right; rfl

theorem networkNumberAndMask_length (n : IPNet)
    (h : (n.IP.length = 4 ∧ n.Mask.length = 4) ∨ (n.IP.length = 16 ∧ n.Mask.length = 16)) :
    (networkNumberAndMask n).1.length = 4 ∨ (networkNumberAndMask n).1.length = 16 := by
  unfold networkNumberAndMask
  rcases h with ⟨h1, h2⟩ | ⟨h1, h2⟩
  · have : To4 n.IP = n.IP := by simp [To4, h1]
    have hne : n.IP ≠ [] := by
      intro h; rw [h] at h1; simp at h1
    simp [this, hne, h1, h2]
  · rcases To4_length n.IP with h4 | h4
    · have hne : To4 n.IP ≠ [] := by
        intro h; rw [h] at h4; simp at h4
      simp [hne, h2, h4]
    · simp [h4, h1, h2]

theorem Contains_nil (n : IPNet)
    (h : (n.IP.length = 4 ∧ n.Mask.length = 4) ∨ (n.IP.length = 16 ∧ n.Mask.length = 16)) :
    n.Contains [] = false := by
  unfold IPNet.Contains
  have h0 : To4 [] = [] := by rfl
  simp only [h0, if_true, List.length_nil]
  rcases networkNumberAndMask_length n h with h | h <;> simp [h]

theorem isPrivateNetwork_eq (s : String) :
    isPrivateNetwork s =
      some (decide (ParseIP s ≠ []) && privateTable.any (fun n => n.Contains (ParseIP s))) := by
  unfold isPrivateNetwork
  simp only [privateRanges, isPrivateNetwork.loop, ParseCIDR_fdaa, ParseCIDR_10, ParseCIDR_172,
    ParseCIDR_192, ParseCIDR_fc00, privateTable, List.any_cons, List.any_nil]
  by_cases h : ParseIP s = []
  · simp [h]
  · simp only [h, if_false]
    cases netFdaa.Contains (ParseIP s) <;> cases net10.Contains (ParseIP s) <;>
      cases net172.Contains (ParseIP s) <;> cases net192.Contains (ParseIP s) <;>
      cases netFc00.Contains (ParseIP s) <;> simp [h]

theorem ParseCIDR_error (s : String) (err : ParseError) (h : ParseCIDR s = .error err) :
    err = ⟨"CIDR address", s⟩ := by
  unfold ParseCIDR at h
  simp only at h
  repeat' split at h
  all_goals first
    | (injection h with h; exact h.symm)
    | cases h

theorem ParseError_Error_cidr (s : String) :
    "Invalid ALLOWED_HOME_IP CIDR: " ++ (ParseError.mk "CIDR address" s).Error
      = configErrorLine s := by
  unfold ParseError.Error configErrorLine
  simp only [String.append_assoc]
  rfl

/-- The decision of `isAllowedIP` once the private-network test has failed. -/
theorem isAllowedIP_of_not_private (env : Env) (e : RequestEvent) (log : Log)
    (h : isPrivateNetwork e.RealIP = some false) :
    isAllowedIP env e log =
      if Getenv env "ALLOWED_HOME_IP" = "" then some (false, log)
      else if '/' ∈ (Getenv env "ALLOWED_HOME_IP").toList then
        match ParseCIDR (Getenv env "ALLOWED_HOME_IP") with
        | .error _ => some (false, log ++ [configErrorLine (Getenv env "ALLOWED_HOME_IP")])
        | .ok allowedNet => some (allowedNet.Contains (ParseIP e.RealIP), log)
      else some (decide (e.RealIP = Getenv env "ALLOWED_HOME_IP"), log) := by
  unfold isAllowedIP
  simp only [h]
  split
  · rfl
  · split
    · cases hp : ParseCIDR (Getenv env "ALLOWED_HOME_IP") with
      | error err =>
        simp only
        rw [ParseCIDR_error _ _ hp, ParseError_Error_cidr]
      | ok n => rfl
    · rfl

theorem isAllowedIP_of_private (env : Env) (e : RequestEvent) (log : Log)
    (h : isPrivateNetwork e.RealIP = some true) :
    isAllowedIP env e log = some (true, log) := by
  unfold isAllowedIP
  simp only [h]

theorem isPrivateNetwork_of_nil (s : String) (h : ParseIP s = []) :
    isPrivateNetwork s = some false := by
  simp [isPrivateNetwork_eq, h]

/-! ## Bytes of a parsed address -/

/-- Every element of the array is a byte. -/
theorem ByteArr_zero_bytes (n : Nat) : ∀ x ∈ (ByteArr.zero n).data, x < 256 := by
  intro x hx
  simp only [ByteArr.zero, List.mem_replicate] at hx
  omega

theorem ByteArr_set_bytes {n : Nat} (a : ByteArr n) (i v : Nat)
    (ha : ∀ x ∈ a.data, x < 256) (hv : v < 256) : ∀ x ∈ (a.set i v).data, x < 256 := by
  intro x hx
  rcases List.mem_or_eq_of_mem_set hx with h | h
  · exact ha x h
  · rw [h]; exact hv

theorem getD_bytes (l : List Nat) (i : Nat) (hl : ∀ x ∈ l, x < 256) : l.getD i 0 < 256 := by
  induction l generalizing i with
  | nil => simp
  | cons y ys ih =>
    cases i with
    | zero => simpa using hl y (List.mem_cons_self _ _)
    | succ j =>
      simpa using ih j (fun x hx => hl x (List.mem_cons_of_mem _ hx))

theorem ByteArr_get_bytes {n : Nat} (a : ByteArr n) (i : Nat)
    (ha : ∀ x ∈ a.data, x < 256) : a.get i < 256 :=
  getD_bytes a.data i ha

theorem parseIPv4Fields_loop_bytes (s : List Char) (i : Nat) (prevDot : Bool)
    (val pos digLen : Nat) (fields r : ByteArr 4)
    (hf : ∀ x ∈ fields.data, x < 256)
    (h : parseIPv4Fields.loop s i prevDot val pos digLen fields = some r) :
    ∀ x ∈ r.data, x < 256 := by
  induction s generalizing i prevDot val pos digLen fields with
  | nil =>
    simp only [parseIPv4Fields.loop] at h
    split at h
    · cases h
    · injection h with h
      subst h
      exact ByteArr_set_bytes _ _ _ hf (Nat.mod_lt _ (by decide))
  | cons c rest ih =>
    simp only [parseIPv4Fields.loop] at h
    split at h
    · split at h
      · cases h
      · split at h
        · cases h
        · exact ih _ _ _ _ _ _ hf h
    · split at h
      · split at h
        · cases h
        · split at h
          · cases h
          · exact ih _ _ _ _ _ _ (ByteArr_set_bytes _ _ _ hf (Nat.mod_lt _ (by decide))) h
      · cases h

theorem parseIPv4Fields_bytes (s : List Char) (r : ByteArr 4) (h : parseIPv4Fields s = some r) :
    ∀ x ∈ r.data, x < 256 :=
  parseIPv4Fields_loop_bytes s 0 false 0 0 0 _ r (ByteArr_zero_bytes 4) h

theorem parseIPv6_loop_bytes (fuel : Nat) (st r : V6State)
    (hst : ∀ x ∈ st.ip.data, x < 256)
    (h : parseIPv6.loop fuel st = some r) : ∀ x ∈ r.ip.data, x < 256 := by
  induction fuel generalizing st with
  | zero =>
    simp only [parseIPv6.loop] at h
    split at h
    · cases h
    · injection h with h; subst h; exact hst
  | succ fuel ih =>
    simp only [parseIPv6.loop] at h
    split at h
    · split at h
      · cases h
      · rename_i off acc rest hg
        split at h
        · cases h
        · split at h
          · split at h
            · cases h
            · split at h
              · cases h
              · split at h
                · cases h
                · rename_i f hf
                  injection h with h
                  subst h
                  have hfb := parseIPv4Fields_bytes _ _ hf
                  exact ByteArr_set_bytes _ _ _ (ByteArr_set_bytes _ _ _ (ByteArr_set_bytes _ _ _
                    (ByteArr_set_bytes _ _ _ hst (ByteArr_get_bytes f 0 hfb))
                    (ByteArr_get_bytes f 1 hfb)) (ByteArr_get_bytes f 2 hfb))
                    (ByteArr_get_bytes f 3 hfb)
          · have hip : ∀ x ∈ ((st.ip.set st.i ((acc / 256) % 256)).set (st.i + 1)
                (acc % 256)).data, x < 256 :=
              ByteArr_set_bytes _ _ _ (ByteArr_set_bytes _ _ _ hst (Nat.mod_lt _ (by decide)))
                (Nat.mod_lt _ (by decide))
            split at h
            · injection h with h; subst h; exact hip
            · split at h
              · cases h
              · split at h
                · cases h
                · split at h
                  · split at h
                    · cases h
                    · split at h
                      · injection h with h; subst h; exact hip
                      · exact ih _ hip h
                  · exact ih _ hip h
    · injection h with h; subst h; exact hst

theorem foldl_bytes {α : Type} (f : ByteArr 16 → α → ByteArr 16) (l : List α) (a : ByteArr 16)
    (hf : ∀ b y, (∀ x ∈ b.data, x < 256) → ∀ x ∈ (f b y).data, x < 256)
    (ha : ∀ x ∈ a.data, x < 256) : ∀ x ∈ (l.foldl f a).data, x < 256 := by
  induction l generalizing a with
  | nil => exact ha
  | cons y ys ih => exact ih _ (hf a y ha)

theorem expandEllipsis_bytes (ip : ByteArr 16) (i e : Nat) (h : ∀ x ∈ ip.data, x < 256) :
    ∀ x ∈ (expandEllipsis ip i e).data, x < 256 := by
  unfold expandEllipsis
  apply foldl_bytes
  · intro b y hb
    exact ByteArr_set_bytes _ _ _ hb (by decide)
  · apply foldl_bytes
    · intro b y hb
      exact ByteArr_set_bytes _ _ _ hb (ByteArr_get_bytes b y hb)
    · exact h

theorem Addr_As16_bytes_v4 (f : ByteArr 4) (hf : ∀ x ∈ f.data, x < 256) :
    ∀ x ∈ (Addr.v4 f).As16.data, x < 256 := by
  intro x hx
  simp only [Addr.As16, List.mem_append] at hx
  rcases hx with hx | hx
  · simp only [v4InV6Pfx, List.mem_cons, List.mem_singleton, List.not_mem_nil, or_false] at hx
    omega
  · exact hf x hx

theorem parseIPv6_bytes (s : List Char) (a : Addr) (h : parseIPv6 s = some a) :
    ∀ x ∈ a.As16.data, x < 256 := by
  unfold parseIPv6 at h
  simp only at h
  split at h
  · cases h
  · split at h
    · cases h
    · rename_i st0 hst0
      have h0 : ∀ x ∈ st0.ip.data, x < 256 := by
        split at hst0 <;> (injection hst0 with hst0; subst hst0; exact ByteArr_zero_bytes 16)
      split at h
      · injection h with h; subst h; exact ByteArr_zero_bytes 16
      · split at h
        · cases h
        · rename_i st hloop
          have hb := parseIPv6_loop_bytes _ _ _ h0 hloop
          split at h
          · cases h
          · split at h
            · split at h
              · cases h
              · injection h with h; subst h
                exact expandEllipsis_bytes _ _ _ hb
            · split at h
              · cases h
              · injection h with h; subst h; exact hb

theorem ParseAddr_scan_bytes (s t : List Char) (a : Addr) (h : ParseAddr.scan s t = some a) :
    ∀ x ∈ a.As16.data, x < 256 := by
  induction t with
  | nil => simp [ParseAddr.scan] at h
  | cons c rest ih =>
    simp only [ParseAddr.scan] at h
    split at h
    · simp only [parseIPv4, Option.map_eq_some'] at h
      obtain ⟨f, hf, rfl⟩ := h
      exact Addr_As16_bytes_v4 f (parseIPv4Fields_bytes _ _ hf)
    · split at h
      · exact parseIPv6_bytes _ _ h
      · split at h
        · cases h
        · exact ih h

/-- `ParseIP` returns nil or sixteen bytes. -/
theorem ParseIP_length (s : String) : ParseIP s = [] ∨ (ParseIP s).length = 16 := by
  unfold ParseIP
  split
  · split
    · right; exact (Addr.As16 _).size
    · left; rfl
  · left; rfl

/-- Every element of the slice `ParseIP` returns is below 256. -/
theorem ParseIP_bytes (s : String) : ∀ x ∈ ParseIP s, x < 256 := by
  unfold ParseIP
  split
  · rename_i a ha
    split
    · exact ParseAddr_scan_bytes _ _ _ ha
    · simp
  · simp

/-- The fuel of the main loop of `parseIPv6` is never used up: once
`16 ≤ i + 2 * fuel`, more fuel changes nothing. -/
theorem parseIPv6_loop_fuel (fuel k : Nat) (st : V6State) (h : 16 ≤ st.i + 2 * fuel) :
    parseIPv6.loop (fuel + k) st = parseIPv6.loop fuel st := by
  induction fuel generalizing st with
  | zero =>
    have hi : ¬ st.i < 16 := by omega
    cases k with
    | zero => rfl
    | succ k =>
      simp only [Nat.zero_add, parseIPv6.loop, hi, if_false]
  | succ fuel ih =>
    rw [Nat.add_right_comm]
    simp only [parseIPv6.loop]
    have hrec : ∀ s ip e, parseIPv6.loop (fuel + k) ⟨s, st.i + 2, ip, e⟩ =
        parseIPv6.loop fuel ⟨s, st.i + 2, ip, e⟩ := by
      intro s ip e
      apply ih
      show 16 ≤ st.i + 2 + 2 * fuel
      omega
    simp only [hrec]

/-! ## Membership in the ranges of the private-network table -/

theorem Contains_eq (n : IPNet) (ip : List Nat) :
    n.Contains ip =
      if (normIP ip).length ≠ (networkNumberAndMask n).1.length then false
      else (List.range (normIP ip).length).all (fun i =>
        (networkNumberAndMask n).1.getD i 0 &&& (networkNumberAndMask n).2.getD i 0 ==
          (normIP ip).getD i 0 &&& (networkNumberAndMask n).2.getD i 0) := by
  rfl

theorem Contains_spec (n : IPNet) (ip : List Nat) (h : n.Contains ip = true) :
    (normIP ip).length = (networkNumberAndMask n).1.length ∧
      ∀ i, i < (normIP ip).length →
        (networkNumberAndMask n).1.getD i 0 &&& (networkNumberAndMask n).2.getD i 0 =
          (normIP ip).getD i 0 &&& (networkNumberAndMask n).2.getD i 0 := by
  rw [Contains_eq] at h
  split at h
  · cases h
  · rename_i hl
    refine ⟨not_not.mp hl, fun i hi => ?_⟩
    rw [List.all_eq_true] at h
    have := h i (List.mem_range.mpr hi)
    simpa using this

theorem Contains_of_spec (n : IPNet) (ip : List Nat)
    (hl : (normIP ip).length = (networkNumberAndMask n).1.length)
    (h : ∀ i, i < (normIP ip).length →
        (networkNumberAndMask n).1.getD i 0 &&& (networkNumberAndMask n).2.getD i 0 =
          (normIP ip).getD i 0 &&& (networkNumberAndMask n).2.getD i 0) :
    n.Contains ip = true := by
  rw [Contains_eq, if_neg (not_not.mpr hl), List.all_eq_true]
  intro i hi
  simpa using h i (List.mem_range.mp hi)

theorem nnm_fdaa : networkNumberAndMask netFdaa = (netFdaa.IP, netFdaa.Mask) := by
  decide

theorem nnm_10 : networkNumberAndMask net10 = (net10.IP, net10.Mask) := by
  decide

theorem nnm_172 : networkNumberAndMask net172 = (net172.IP, net172.Mask) := by
  decide

theorem nnm_192 : networkNumberAndMask net192 = (net192.IP, net192.Mask) := by
  decide

theorem nnm_fc00 : networkNumberAndMask netFc00 = (netFc00.IP, netFc00.Mask) := by
  decide

theorem Contains_fdaa_head (ip : List Nat) (h : netFdaa.Contains ip = true) :
    (normIP ip).length = 16 ∧ (normIP ip).getD 0 0 &&& 255 = 253 := by
  obtain ⟨hl, hb⟩ := Contains_spec _ _ h
  rw [nnm_fdaa] at hl hb
  have hl4 : (normIP ip).length = 16 := hl
  refine ⟨hl4, ?_⟩
  have := hb 0 (by omega)
  simpa [netFdaa] using this.symm

theorem Contains_fc00_of_head (ip : List Nat) (hl : (normIP ip).length = 16)
    (hb : (normIP ip).getD 0 0 &&& 254 = 252) : netFc00.Contains ip = true := by
  apply Contains_of_spec
  · rw [nnm_fc00]; exact hl
  · rw [nnm_fc00, hl]
    intro i hi
    rcases i with _ | i
    · show 252 &&& 254 = (normIP ip).getD 0 0 &&& 254
      rw [hb]
      decide
    · have hi2 : i < 15 := by omega
      interval_cases i <;> simp [netFc00]

theorem fdaa_subset_fc00 (ip : List Nat) (h : netFdaa.Contains ip = true) :
    netFc00.Contains ip = true := by
  obtain ⟨hl, hb⟩ := Contains_fdaa_head ip h
  apply Contains_fc00_of_head ip hl
  have h254 : 255 &&& 254 = 254 := by decide
  have h1 : (normIP ip).getD 0 0 &&& 254 = ((normIP ip).getD 0 0 &&& 255) &&& 254 := by
    rw [Nat.land_assoc, h254]
  rw [h1, hb]
  decide

theorem Contains_head (n : IPNet) (hn : n ∈ privateTable) (ip : List Nat)
    (h : n.Contains ip = true) :
    (normIP ip).length = n.IP.length ∧
      (normIP ip).getD 0 0 &&& n.Mask.getD 0 0 = n.IP.getD 0 0 &&& n.Mask.getD 0 0 := by
  obtain ⟨hl, hb⟩ := Contains_spec _ _ h
  have hnm : networkNumberAndMask n = (n.IP, n.Mask) := by
    simp only [privateTable, List.mem_cons, List.mem_singleton, List.not_mem_nil, or_false] at hn
    rcases hn with rfl | rfl | rfl | rfl | rfl
    · exact nnm_fdaa
    · exact nnm_10
    · exact nnm_172
    · exact nnm_192
    · exact nnm_fc00
  rw [hnm] at hl hb
  have hpos : 0 < n.IP.length := by
    simp only [privateTable, List.mem_cons, List.mem_singleton, List.not_mem_nil, or_false] at hn
    rcases hn with rfl | rfl | rfl | rfl | rfl <;> decide
  exact ⟨hl, (hb 0 (by rw [hl]; exact hpos)).symm⟩

theorem any_eq_of_perm {α : Type} (f : α → Bool) (l₁ l₂ : List α) (hp : l₁.Perm l₂) :
    l₁.any f = l₂.any f := by
  rw [Bool.eq_iff_iff, List.any_eq_true, List.any_eq_true]
  constructor
  · rintro ⟨x, hx, hf⟩
    exact ⟨x, hp.mem_iff.mp hx, hf⟩
  · rintro ⟨x, hx, hf⟩
    exact ⟨x, hp.mem_iff.mpr hx, hf⟩

/-! ### Agreement with the arithmetic reading of the ranges -/

theorem normIP_mapped (a b c d : Nat) : normIP (v4InV6Pfx ++ [a, b, c, d]) = [a, b, c, d] := by
  rfl

set_option maxRecDepth 100000 in
theorem and_255 : ∀ a < 256, a &&& 255 = a := by
  decide

set_option maxRecDepth 100000 in
theorem and_240 : ∀ b < 256, (b &&& 240 = 16 ↔ b / 16 = 1) := by
  decide

set_option maxRecDepth 100000 in
theorem and_254 : ∀ x < 256, (x &&& 254 = 252 ↔ x / 2 = 126) := by
  decide

theorem net10_mapped (a b c d : Nat) (ha : a < 256) (hb : b < 256) (hc : c < 256)
    (hd : d < 256) :
    net10.Contains (v4InV6Pfx ++ [a, b, c, d]) = true ↔
      inRange [10, 0, 0, 0] 8 [a, b, c, d] := by
  rw [Contains_eq, nnm_10, normIP_mapped]
  have e10 : 10 &&& 255 = 10 := by decide
  simp [net10, List.range_succ, List.range_zero, and_255 a ha, e10, inRange, beValue]
  omega

theorem net172_mapped (a b c d : Nat) (ha : a < 256) (hb : b < 256) (hc : c < 256)
    (hd : d < 256) :
    net172.Contains (v4InV6Pfx ++ [a, b, c, d]) = true ↔
      inRange [172, 16, 0, 0] 12 [a, b, c, d] := by
  rw [Contains_eq, nnm_172, normIP_mapped]
  have e1 : 172 &&& 255 = 172 := by decide
  have e2 : 16 &&& 240 = 16 := by decide
  have e3 : (16 = b &&& 240) ↔ b / 16 = 1 := by
    rw [eq_comm]; exact and_240 b hb
  simp [net172, List.range_succ, List.range_zero, and_255 a ha, e1, e2, e3, inRange, beValue]
  omega

theorem list_of_length_16 (l : List Nat) (h : l.length = 16) :
    ∃ x0 x1 x2 x3 x4 x5 x6 x7 x8 x9 x10 x11 x12 x13 x14 x15 : Nat,
      l = [x0, x1, x2, x3, x4, x5, x6, x7, x8, x9, x10, x11, x12, x13, x14, x15] := by
  rcases l with _ | ⟨x0, l⟩
  · simp at h
  rcases l with _ | ⟨x1, l⟩
  · simp at h
  rcases l with _ | ⟨x2, l⟩
  · simp at h
  rcases l with _ | ⟨x3, l⟩
  · simp at h
  rcases l with _ | ⟨x4, l⟩
  · simp at h
  rcases l with _ | ⟨x5, l⟩
  · simp at h
  rcases l with _ | ⟨x6, l⟩
  · simp at h
  rcases l with _ | ⟨x7, l⟩
  · simp at h
  rcases l with _ | ⟨x8, l⟩
  · simp at h
  rcases l with _ | ⟨x9, l⟩
  · simp at h
  rcases l with _ | ⟨x10, l⟩
  · simp at h
  rcases l with _ | ⟨x11, l⟩
  · simp at h
  rcases l with _ | ⟨x12, l⟩
  · simp at h
  rcases l with _ | ⟨x13, l⟩
  · simp at h
  rcases l with _ | ⟨x14, l⟩
  · simp at h
  rcases l with _ | ⟨x15, l⟩
  · simp at h
  rcases l with _ | ⟨y, l⟩
  · exact ⟨x0, x1, x2, x3, x4, x5, x6, x7, x8, x9, x10, x11, x12, x13, x14, x15, rfl⟩
  · simp at h

theorem normIP_16 (x0 x1 x2 x3 x4 x5 x6 x7 x8 x9 x10 x11 x12 x13 x14 x15 : Nat) :
    normIP [x0, x1, x2, x3, x4, x5, x6, x7, x8, x9, x10, x11, x12, x13, x14, x15] =
      if [x0, x1, x2, x3, x4, x5, x6, x7, x8, x9, x10, x11] = v4InV6Pfx then [x12, x13, x14, x15]
      else [x0, x1, x2, x3, x4, x5, x6, x7, x8, x9, x10, x11, x12, x13, x14, x15] := by
  by_cases hm : [x0, x1, x2, x3, x4, x5, x6, x7, x8, x9, x10, x11] = v4InV6Pfx
  · rw [if_pos hm]
    simp only [v4InV6Pfx, List.cons.injEq, and_true] at hm
    obtain ⟨rfl, rfl, rfl, rfl, rfl, rfl, rfl, rfl, rfl, rfl, rfl, rfl⟩ := hm
    rfl
  · rw [if_neg hm]
    have : To4 [x0, x1, x2, x3, x4, x5, x6, x7, x8, x9, x10, x11, x12, x13, x14, x15] = [] := by
      simp only [v4InV6Pfx, List.cons.injEq, and_true] at hm
      simp [To4, isZeros]
      intro h0 h1 h2 h3 h4 h5 h6 h7 h8 h9 h10
      exact fun h11 => hm ⟨h0, h1, h2, h3, h4, h5, h6, h7, h8, h9, h10, h11⟩
    simp [normIP, this]

theorem net192_mapped (a b c d : Nat) (ha : a < 256) (hb : b < 256) (hc : c < 256)
    (hd : d < 256) :
    net192.Contains (v4InV6Pfx ++ [a, b, c, d]) = true ↔
      inRange [192, 168, 0, 0] 16 [a, b, c, d] := by
  rw [Contains_eq, nnm_192, normIP_mapped]
  have e1 : 192 &&& 255 = 192 := by decide
  have e2 : 168 &&& 255 = 168 := by decide
  simp [net192, List.range_succ, List.range_zero, and_255 a ha, and_255 b hb, e1, e2, inRange,
    beValue]
  omega

theorem net10_16 (x0 x1 x2 x3 x4 x5 x6 x7 x8 x9 x10 x11 x12 x13 x14 x15 : Nat)
    (hb : ∀ x ∈ [x0, x1, x2, x3, x4, x5, x6, x7, x8, x9, x10, x11, x12, x13, x14, x15],
      x < 256) :
    net10.Contains
        [x0, x1, x2, x3, x4, x5, x6, x7, x8, x9, x10, x11, x12, x13, x14, x15] = true ↔
      ([x0, x1, x2, x3, x4, x5, x6, x7, x8, x9, x10, x11] = v4InV6Pfx ∧
        inRange [10, 0, 0, 0] 8 [x12, x13, x14, x15]) := by
  by_cases hm : [x0, x1, x2, x3, x4, x5, x6, x7, x8, x9, x10, x11] = v4InV6Pfx
  · have hm2 := hm
    simp only [v4InV6Pfx, List.cons.injEq, and_true] at hm2
    obtain ⟨rfl, rfl, rfl, rfl, rfl, rfl, rfl, rfl, rfl, rfl, rfl, rfl⟩ := hm2
    have := net10_mapped x12 x13 x14 x15 (hb x12 (by simp)) (hb x13 (by simp))
      (hb x14 (by simp)) (hb x15 (by simp))
    constructor
    · exact fun h => ⟨hm, this.mp h⟩
    · exact fun h => this.mpr h.2
  · constructor
    · intro h
      rw [Contains_eq, nnm_10, normIP_16, if_neg hm] at h
      simp [net10] at h
    · exact fun h => absurd h.1 hm

theorem net172_16 (x0 x1 x2 x3 x4 x5 x6 x7 x8 x9 x10 x11 x12 x13 x14 x15 : Nat)
    (hb : ∀ x ∈ [x0, x1, x2, x3, x4, x5, x6, x7, x8, x9, x10, x11, x12, x13, x14, x15],
      x < 256) :
    net172.Contains
        [x0, x1, x2, x3, x4, x5, x6, x7, x8, x9, x10, x11, x12, x13, x14, x15] = true ↔
      ([x0, x1, x2, x3, x4, x5, x6, x7, x8, x9, x10, x11] = v4InV6Pfx ∧
        inRange [172, 16, 0, 0] 12 [x12, x13, x14, x15]) := by
  by_cases hm : [x0, x1, x2, x3, x4, x5, x6, x7, x8, x9, x10, x11] = v4InV6Pfx
  · have hm2 := hm
    simp only [v4InV6Pfx, List.cons.injEq, and_true] at hm2
    obtain ⟨rfl, rfl, rfl, rfl, rfl, rfl, rfl, rfl, rfl, rfl, rfl, rfl⟩ := hm2
    have := net172_mapped x12 x13 x14 x15 (hb x12 (by simp)) (hb x13 (by simp))
      (hb x14 (by simp)) (hb x15 (by simp))
    constructor
    · exact fun h => ⟨hm, this.mp h⟩
    · exact fun h => this.mpr h.2
  · constructor
    · intro h
      rw [Contains_eq, nnm_172, normIP_16, if_neg hm] at h
      simp [net172] at h
    · exact fun h => absurd h.1 hm

theorem net192_16 (x0 x1 x2 x3 x4 x5 x6 x7 x8 x9 x10 x11 x12 x13 x14 x15 : Nat)
    (hb : ∀ x ∈ [x0, x1, x2, x3, x4, x5, x6, x7, x8, x9, x10, x11, x12, x13, x14, x15],
      x < 256) :
    net192.Contains
        [x0, x1, x2, x3, x4, x5, x6, x7, x8, x9, x10, x11, x12, x13, x14, x15] = true ↔
      ([x0, x1, x2, x3, x4, x5, x6, x7, x8, x9, x10, x11] = v4InV6Pfx ∧
        inRange [192, 168, 0, 0] 16 [x12, x13, x14, x15]) := by
  by_cases hm : [x0, x1, x2, x3, x4, x5, x6, x7, x8, x9, x10, x11] = v4InV6Pfx
  · have hm2 := hm
    simp only [v4InV6Pfx, List.cons.injEq, and_true] at hm2
    obtain ⟨rfl, rfl, rfl, rfl, rfl, rfl, rfl, rfl, rfl, rfl, rfl, rfl⟩ := hm2
    have := net192_mapped x12 x13 x14 x15 (hb x12 (by simp)) (hb x13 (by simp))
      (hb x14 (by simp)) (hb x15 (by simp))
    constructor
    · exact fun h => ⟨hm, this.mp h⟩
    · exact fun h => this.mpr h.2
  · constructor
    · intro h
      rw [Contains_eq, nnm_192, normIP_16, if_neg hm] at h
      simp [net192] at h
    · exact fun h => absurd h.1 hm

theorem netFdaa_16 (x0 x1 x2 x3 x4 x5 x6 x7 x8 x9 x10 x11 x12 x13 x14 x15 : Nat)
    (hb : ∀ x ∈ [x0, x1, x2, x3, x4, x5, x6, x7, x8, x9, x10, x11, x12, x13, x14, x15],
      x < 256) :
    netFdaa.Contains
        [x0, x1, x2, x3, x4, x5, x6, x7, x8, x9, x10, x11, x12, x13, x14, x15] = true ↔
      inRange [0xfd, 0xaa, 0, 0, 0, 0, 0, 0, 0, 0, 0, 0, 0, 0, 0, 0] 48
        [x0, x1, x2, x3, x4, x5, x6, x7, x8, x9, x10, x11, x12, x13, x14, x15] := by
  have h0 : x0 < 256 := hb x0 (by simp)
  have h1 : x1 < 256 := hb x1 (by simp)
  have h2 : x2 < 256 := hb x2 (by simp)
  have h3 : x3 < 256 := hb x3 (by simp)
  have h4 : x4 < 256 := hb x4 (by simp)
  have h5 : x5 < 256 := hb x5 (by simp)
  have h6 : x6 < 256 := hb x6 (by simp)
  have h7 : x7 < 256 := hb x7 (by simp)
  have h8 : x8 < 256 := hb x8 (by simp)
  have h9 : x9 < 256 := hb x9 (by simp)
  have h10 : x10 < 256 := hb x10 (by simp)
  have h11 : x11 < 256 := hb x11 (by simp)
  have h12 : x12 < 256 := hb x12 (by simp)
  have h13 : x13 < 256 := hb x13 (by simp)
  have h14 : x14 < 256 := hb x14 (by simp)
  have h15 : x15 < 256 := hb x15 (by simp)
  rw [Contains_eq, nnm_fdaa, normIP_16]
  by_cases hm : [x0, x1, x2, x3, x4, x5, x6, x7, x8, x9, x10, x11] = v4InV6Pfx
  · rw [if_pos hm]
    simp only [v4InV6Pfx, List.cons.injEq, and_true] at hm
    obtain ⟨rfl, rfl, rfl, rfl, rfl, rfl, rfl, rfl, rfl, rfl, rfl, rfl⟩ := hm
    simp [netFdaa, inRange, beValue]
    omega
  · rw [if_neg hm]
    have e1 : 253 &&& 255 = 253 := by decide
    have e2 : 170 &&& 255 = 170 := by decide
    simp [netFdaa, List.range_succ, List.range_zero, and_255 x0 h0, and_255 x1 h1, and_255 x2 h2,
      and_255 x3 h3, and_255 x4 h4, and_255 x5 h5, e1, e2, inRange, beValue]
    omega

theorem netFc00_16 (x0 x1 x2 x3 x4 x5 x6 x7 x8 x9 x10 x11 x12 x13 x14 x15 : Nat)
    (hb : ∀ x ∈ [x0, x1, x2, x3, x4, x5, x6, x7, x8, x9, x10, x11, x12, x13, x14, x15],
      x < 256) :
    netFc00.Contains
        [x0, x1, x2, x3, x4, x5, x6, x7, x8, x9, x10, x11, x12, x13, x14, x15] = true ↔
      inRange [0xfc, 0, 0, 0, 0, 0, 0, 0, 0, 0, 0, 0, 0, 0, 0, 0] 7
        [x0, x1, x2, x3, x4, x5, x6, x7, x8, x9, x10, x11, x12, x13, x14, x15] := by
  have h0 : x0 < 256 := hb x0 (by simp)
  have h1 : x1 < 256 := hb x1 (by simp)
  have h2 : x2 < 256 := hb x2 (by simp)
  have h3 : x3 < 256 := hb x3 (by simp)
  have h4 : x4 < 256 := hb x4 (by simp)
  have h5 : x5 < 256 := hb x5 (by simp)
  have h6 : x6 < 256 := hb x6 (by simp)
  have h7 : x7 < 256 := hb x7 (by simp)
  have h8 : x8 < 256 := hb x8 (by simp)
  have h9 : x9 < 256 := hb x9 (by simp)
  have h10 : x10 < 256 := hb x10 (by simp)
  have h11 : x11 < 256 := hb x11 (by simp)
  have h12 : x12 < 256 := hb x12 (by simp)
  have h13 : x13 < 256 := hb x13 (by simp)
  have h14 : x14 < 256 := hb x14 (by simp)
  have h15 : x15 < 256 := hb x15 (by simp)
  rw [Contains_eq, nnm_fc00, normIP_16]
  by_cases hm : [x0, x1, x2, x3, x4, x5, x6, x7, x8, x9, x10, x11] = v4InV6Pfx
  · rw [if_pos hm]
    simp only [v4InV6Pfx, List.cons.injEq, and_true] at hm
    obtain ⟨rfl, rfl, rfl, rfl, rfl, rfl, rfl, rfl, rfl, rfl, rfl, rfl⟩ := hm
    simp [netFc00, inRange, beValue]
    omega
  · rw [if_neg hm]
    have e1 : 252 &&& 254 = 252 := by decide
    have e3 : (252 = x0 &&& 254) ↔ x0 / 2 = 126 := by
      rw [eq_comm]; exact and_254 x0 h0
    simp [netFc00, List.range_succ, List.range_zero, e1, e3, inRange, beValue]
    omega

theorem or_regroup (A M B C D E : Prop) :
    (A ∨ M ∧ B ∨ M ∧ C ∨ M ∧ D ∨ E) ↔ (M ∧ (B ∨ C ∨ D) ∨ A ∨ E) := by
  tauto

/-- The private-network test of the code agrees with the arithmetic reading of
the five CIDR ranges on every parsed address. -/
theorem privateTable_any_iff (s : String) :
    (ParseIP s ≠ [] ∧ privateTable.any (fun n => n.Contains (ParseIP s)) = true) ↔
      inPrivateRanges (ParseIP s) := by
  have hbytes := ParseIP_bytes s
  rcases ParseIP_length s with h | h
  · rw [h]
    constructor
    · exact fun h => absurd rfl h.1
    · intro h
      revert h
      decide
  · obtain ⟨x0, x1, x2, x3, x4, x5, x6, x7, x8, x9, x10, x11, x12, x13, x14, x15, hl⟩ :=
      list_of_length_16 _ h
    rw [hl] at hbytes ⊢
    have a1 := netFdaa_16 x0 x1 x2 x3 x4 x5 x6 x7 x8 x9 x10 x11 x12 x13 x14 x15 hbytes
    have a2 := net10_16 x0 x1 x2 x3 x4 x5 x6 x7 x8 x9 x10 x11 x12 x13 x14 x15 hbytes
    have a3 := net172_16 x0 x1 x2 x3 x4 x5 x6 x7 x8 x9 x10 x11 x12 x13 x14 x15 hbytes
    have a4 := net192_16 x0 x1 x2 x3 x4 x5 x6 x7 x8 x9 x10 x11 x12 x13 x14 x15 hbytes
    have a5 := netFc00_16 x0 x1 x2 x3 x4 x5 x6 x7 x8 x9 x10 x11 x12 x13 x14 x15 hbytes
    simp only [privateTable, List.any_cons, List.any_nil, Bool.or_false, Bool.or_eq_true,
      a1, a2, a3, a4, a5, inPrivateRanges, List.take, List.drop, ne_eq, not_false_eq_true,
      true_and, reduceCtorEq]
    exact or_regroup _ _ _ _ _ _

/-- Function `isPrivateNetwork` never panics and decides exactly whether the
parsed address lies, arithmetically, in one of the five ranges. -/
theorem isPrivateNetwork_refines (s : String) :
    isPrivateNetwork s = some (decide (inPrivateRanges (ParseIP s))) := by
  rw [isPrivateNetwork_eq]
  congr 1
  rw [Bool.eq_iff_iff, Bool.and_eq_true, decide_eq_true_iff, decide_eq_true_iff]
  exact privateTable_any_iff s

/-! ## The claims -/

theorem isPrivateNetwork_of_inPrivateRanges (s : String) (h : inPrivateRanges (ParseIP s)) :
    isPrivateNetwork s = some true := by
  rw [isPrivateNetwork_refines, decide_eq_true h]

theorem isPrivateNetwork_of_not_inPrivateRanges (s : String)
    (h : ¬ inPrivateRanges (ParseIP s)) : isPrivateNetwork s = some false := by
  rw [isPrivateNetwork_refines, decide_eq_false h]

/-- C1: a client address that parses to an address lying in `10.0.0.0/8`,
`172.16.0.0/12`, `192.168.0.0/16`, `fdaa::/48` or `fc00::/7` is allowed by
`isAllowedIP` whatever the environment holds for `ALLOWED_HOME_IP`, and the log
is left as it was. -/
theorem private_client_always_allowed (env : Env) (e : RequestEvent) (log : Log)
    (hin : inPrivateRanges (ParseIP e.RealIP)) :
    isAllowedIP env e log = some (true, log) :=
  isAllowedIP_of_private env e log (isPrivateNetwork_of_inPrivateRanges _ hin)

/-- C1 at concrete inputs: one client in each range (and the platform address
`fdaa:0:1::1`), under a malformed, an unset, a literal, a CIDR and an empty
value of `ALLOWED_HOME_IP`. -/
theorem private_client_always_allowed_witness :
    isAllowedIP (envWith (some "not-a-cidr/bogus")) ⟨"10.1.2.3", "/"⟩ [] = some (true, []) ∧
    isAllowedIP (envWith none) ⟨"fdaa::1", "/"⟩ [] = some (true, []) ∧
    isAllowedIP (envWith none) ⟨"fdaa:0:1::1", "/"⟩ [] = some (true, []) ∧
    isAllowedIP (envWith (some "203.0.113.5")) ⟨"172.31.255.255", "/"⟩ [] = some (true, []) ∧
    isAllowedIP (envWith (some "203.0.113.0/24")) ⟨"192.168.0.1", "/"⟩ [] = some (true, []) ∧
    isAllowedIP (envWith (some "")) ⟨"fc00::1", "/"⟩ [] = some (true, []) :=
  ⟨private_client_always_allowed _ ⟨"10.1.2.3", "/"⟩ [] (by decide),
    private_client_always_allowed _ ⟨"fdaa::1", "/"⟩ [] (by decide),
    private_client_always_allowed _ ⟨"fdaa:0:1::1", "/"⟩ [] (by decide),
    private_client_always_allowed _ ⟨"172.31.255.255", "/"⟩ [] (by decide),
    private_client_always_allowed _ ⟨"192.168.0.1", "/"⟩ [] (by decide),
    private_client_always_allowed _ ⟨"fc00::1", "/"⟩ [] (by decide)⟩

/-- C2 (as stated, refuted): the client string `invalid IP` does not parse as
an IP address, and with `ALLOWED_HOME_IP` set to the same text `isAllowedIP`
returns true. -/
theorem unparsable_client_allowed_by_equal_literal :
    ParseIP "invalid IP" = [] ∧
    isAllowedIP (envWith (some "invalid IP")) ⟨"invalid IP", "/"⟩ [] = some (true, []) := by
  decide

/-- C2 (amended): for a client string that does not parse as an IP address,
`isAllowedIP` never panics and returns true exactly when `ALLOWED_HOME_IP` is a
non-empty value without `/` equal to the client string; for every other value
(unset, empty, CIDR-shaped, a different literal) it returns false. -/
theorem unparsable_client_denied_unless_equal_literal (env : Env) (e : RequestEvent) (log : Log)
    (hparse : ParseIP e.RealIP = []) :
    ∃ b log1, isAllowedIP env e log = some (b, log1) ∧
      (b = true ↔
        (Getenv env "ALLOWED_HOME_IP" ≠ "" ∧ '/' ∉ (Getenv env "ALLOWED_HOME_IP").toList ∧
          e.RealIP = Getenv env "ALLOWED_HOME_IP")) := by
  rw [isAllowedIP_of_not_private env e log (isPrivateNetwork_of_nil _ hparse)]
  by_cases h1 : Getenv env "ALLOWED_HOME_IP" = ""
  · refine ⟨false, log, by simp only [h1, if_true], ?_⟩
    exact ⟨fun h => Bool.noConfusion h, fun h => absurd h1 h.1⟩
  · by_cases h2 : '/' ∈ (Getenv env "ALLOWED_HOME_IP").toList
    · have hiff : false = true ↔
          (Getenv env "ALLOWED_HOME_IP" ≠ "" ∧ '/' ∉ (Getenv env "ALLOWED_HOME_IP").toList ∧
            e.RealIP = Getenv env "ALLOWED_HOME_IP") :=
        ⟨fun h => Bool.noConfusion h, fun h => absurd h2 h.2.1⟩
      cases hp : ParseCIDR (Getenv env "ALLOWED_HOME_IP") with
      | error err =>
        exact ⟨false, log ++ [configErrorLine (Getenv env "ALLOWED_HOME_IP")],
          by simp only [h1, h2, if_true, if_false], hiff⟩
      | ok n =>
        refine ⟨false, log, ?_, hiff⟩
        simp only [h1, h2, if_true, if_false, hparse]
        rw [Contains_nil n (ParseCIDR_shape _ _ hp)]
    · refine ⟨decide (e.RealIP = Getenv env "ALLOWED_HOME_IP"), log,
        by simp only [h1, h2, if_false], ?_⟩
      rw [decide_eq_true_iff]
      exact ⟨fun h => ⟨h1, h2, h⟩, fun h => h.2.2⟩

/-- C2 (amended) at the client string `invalid IP` with a CIDR value of
`ALLOWED_HOME_IP`. -/
theorem unparsable_client_denied_unless_equal_literal_witness :
    ∃ b log1,
      isAllowedIP (envWith (some "203.0.113.0/24")) ⟨"invalid IP", "/"⟩ [] = some (b, log1) ∧
      (b = true ↔
        (Getenv (envWith (some "203.0.113.0/24")) "ALLOWED_HOME_IP" ≠ "" ∧
          '/' ∉ (Getenv (envWith (some "203.0.113.0/24")) "ALLOWED_HOME_IP").toList ∧
          "invalid IP" = Getenv (envWith (some "203.0.113.0/24")) "ALLOWED_HOME_IP")) :=
  unparsable_client_denied_unless_equal_literal (envWith (some "203.0.113.0/24"))
    ⟨"invalid IP", "/"⟩ [] (by decide)

/-- C3: with `ALLOWED_HOME_IP` a non-empty value without `/`, a client that is
not in the private-network table is allowed exactly when its address string
equals the configured string; the log is left as it was. -/
theorem literal_allowlist_is_string_equality (env : Env) (e : RequestEvent) (log : Log)
    (allowed : String)
    (henv : env "ALLOWED_HOME_IP" = some allowed)
    (hne : allowed ≠ "")
    (hslash : '/' ∉ allowed.toList)
    (hpriv : ¬ inPrivateRanges (ParseIP e.RealIP)) :
    isAllowedIP env e log = some (decide (e.RealIP = allowed), log) := by
  have hg : Getenv env "ALLOWED_HOME_IP" = allowed := by simp [Getenv, henv]
  rw [isAllowedIP_of_not_private env e log (isPrivateNetwork_of_not_inPrivateRanges _ hpriv), hg]
  simp only [hne, hslash, if_false]

/-- C3 at `ALLOWED_HOME_IP = 203.0.113.5`: the same string is allowed, another
address is denied, and the IPv4-mapped spelling of the same address is
denied. -/
theorem literal_allowlist_is_string_equality_witness :
    isAllowedIP (envWith (some "203.0.113.5")) ⟨"203.0.113.5", "/"⟩ [] = some (true, []) ∧
    isAllowedIP (envWith (some "203.0.113.5")) ⟨"203.0.113.6", "/"⟩ [] = some (false, []) ∧
    isAllowedIP (envWith (some "203.0.113.5")) ⟨"::ffff:203.0.113.5", "/"⟩ [] =
      some (false, []) :=
  ⟨literal_allowlist_is_string_equality _ ⟨"203.0.113.5", "/"⟩ [] "203.0.113.5" (by rfl)
      (by decide) (by decide) (by decide),
    literal_allowlist_is_string_equality _ ⟨"203.0.113.6", "/"⟩ [] "203.0.113.5" (by rfl)
      (by decide) (by decide) (by decide),
    literal_allowlist_is_string_equality _ ⟨"::ffff:203.0.113.5", "/"⟩ [] "203.0.113.5" (by rfl)
      (by decide) (by decide) (by decide)⟩

/-- C4: with `ALLOWED_HOME_IP` a value containing `/` that parses as a CIDR
range, a client that is not in the private-network table is allowed exactly
when its address string parses as an IP address contained in that range; the
log is left as it was. -/
theorem cidr_allowlist_is_containment (env : Env) (e : RequestEvent) (log : Log)
    (allowed : String) (allowedNet : IPNet)
    (henv : env "ALLOWED_HOME_IP" = some allowed)
    (hslash : '/' ∈ allowed.toList)
    (hcidr : ParseCIDR allowed = .ok allowedNet)
    (hpriv : ¬ inPrivateRanges (ParseIP e.RealIP)) :
    ∃ b, isAllowedIP env e log = some (b, log) ∧
      (b = true ↔ (ParseIP e.RealIP ≠ [] ∧ allowedNet.Contains (ParseIP e.RealIP) = true)) := by
  have hg : Getenv env "ALLOWED_HOME_IP" = allowed := by simp [Getenv, henv]
  have hne : allowed ≠ "" := by
    intro h; rw [h] at hslash; simp at hslash
  rw [isAllowedIP_of_not_private env e log (isPrivateNetwork_of_not_inPrivateRanges _ hpriv), hg]
  refine ⟨allowedNet.Contains (ParseIP e.RealIP),
    by simp only [hne, hslash, hcidr, if_true, if_false], ?_⟩
  constructor
  · intro h
    refine ⟨?_, h⟩
    intro hnil
    rw [hnil, Contains_nil allowedNet (ParseCIDR_shape _ _ hcidr)] at h
    cases h
  · exact fun h => h.2

/-- C4 at `ALLOWED_HOME_IP = 203.0.113.0/24`: `203.0.113.1` and `203.0.113.254`
are allowed, `203.0.114.1` is denied. -/
theorem cidr_allowlist_is_containment_witness :
    isAllowedIP (envWith (some "203.0.113.0/24")) ⟨"203.0.113.1", "/"⟩ [] = some (true, []) ∧
    isAllowedIP (envWith (some "203.0.113.0/24")) ⟨"203.0.113.254", "/"⟩ [] = some (true, []) ∧
    isAllowedIP (envWith (some "203.0.113.0/24")) ⟨"203.0.114.1", "/"⟩ [] = some (false, []) := by
  have net : ParseCIDR "203.0.113.0/24" = .ok ⟨[203, 0, 113, 0], [255, 255, 255, 0]⟩ := by rfl
  obtain ⟨b1, h1, i1⟩ := cidr_allowlist_is_containment (envWith (some "203.0.113.0/24"))
    ⟨"203.0.113.1", "/"⟩ [] "203.0.113.0/24" _ (by rfl) (by decide) net (by decide)
  obtain ⟨b2, h2, i2⟩ := cidr_allowlist_is_containment (envWith (some "203.0.113.0/24"))
    ⟨"203.0.113.254", "/"⟩ [] "203.0.113.0/24" _ (by rfl) (by decide) net (by decide)
  obtain ⟨b3, h3, i3⟩ := cidr_allowlist_is_containment (envWith (some "203.0.113.0/24"))
    ⟨"203.0.114.1", "/"⟩ [] "203.0.113.0/24" _ (by rfl) (by decide) net (by decide)
  have e1 : b1 = true := i1.mpr (by decide)
  have e2 : b2 = true := i2.mpr (by decide)
  have e3 : b3 = false := by
    cases b3
    · rfl
    · exact absurd (i3.mp rfl) (by decide)
  subst e1 e2 e3
  exact ⟨h1, h2, h3⟩

/-- C5: with `ALLOWED_HOME_IP` unset or empty, `isAllowedIP` returns exactly
what `isPrivateNetwork` returns for the client address, so every client that
is not in the private-network table is denied; nothing is logged. -/
theorem empty_allowlist_only_private (env : Env) (e : RequestEvent) (log : Log)
    (henv : env "ALLOWED_HOME_IP" = none ∨ env "ALLOWED_HOME_IP" = some "") :
    (¬ inPrivateRanges (ParseIP e.RealIP) → isAllowedIP env e log = some (false, log)) ∧
    ∃ b, isPrivateNetwork e.RealIP = some b ∧ isAllowedIP env e log = some (b, log) := by
  have hg : Getenv env "ALLOWED_HOME_IP" = "" := by
    rcases henv with h | h <;> simp [Getenv, h]
  have hden : isPrivateNetwork e.RealIP = some false →
      isAllowedIP env e log = some (false, log) := by
    intro h
    rw [isAllowedIP_of_not_private env e log h]
    simp only [hg, if_true]
  refine ⟨fun h => hden (isPrivateNetwork_of_not_inPrivateRanges _ h), ?_⟩
  cases hb : decide (ParseIP e.RealIP ≠ []) &&
      privateTable.any (fun n => n.Contains (ParseIP e.RealIP)) with
  | false =>
    have hp : isPrivateNetwork e.RealIP = some false := by rw [isPrivateNetwork_eq, hb]
    exact ⟨false, hp, hden hp⟩
  | true =>
    have hp : isPrivateNetwork e.RealIP = some true := by rw [isPrivateNetwork_eq, hb]
    exact ⟨true, hp, isAllowedIP_of_private env e log hp⟩

/-- C5 at the client `8.8.8.8` with `ALLOWED_HOME_IP` unset. -/
theorem empty_allowlist_only_private_witness :
    (¬ inPrivateRanges (ParseIP "8.8.8.8") →
      isAllowedIP (envWith none) ⟨"8.8.8.8", "/"⟩ [] = some (false, [])) ∧
    ∃ b, isPrivateNetwork "8.8.8.8" = some b ∧
      isAllowedIP (envWith none) ⟨"8.8.8.8", "/"⟩ [] = some (b, []) :=
  empty_allowlist_only_private (envWith none) ⟨"8.8.8.8", "/"⟩ [] (Or.inl (by rfl))

/-- C6: with `ALLOWED_HOME_IP` a value containing `/` that does not parse as a
CIDR range, a client that is not in the private-network table is denied, the
call does not panic, and exactly one entry, the configuration error naming the
value, is appended to the log. -/
theorem malformed_cidr_denies_and_logs_once (env : Env) (e : RequestEvent) (log : Log)
    (allowed : String) (err : ParseError)
    (henv : env "ALLOWED_HOME_IP" = some allowed)
    (hslash : '/' ∈ allowed.toList)
    (hcidr : ParseCIDR allowed = .error err)
    (hpriv : ¬ inPrivateRanges (ParseIP e.RealIP)) :
    isAllowedIP env e log = some (false, log ++ [configErrorLine allowed]) := by
  have hg : Getenv env "ALLOWED_HOME_IP" = allowed := by simp [Getenv, henv]
  have hne : allowed ≠ "" := by
    intro h; rw [h] at hslash; simp at hslash
  rw [isAllowedIP_of_not_private env e log (isPrivateNetwork_of_not_inPrivateRanges _ hpriv), hg]
  simp only [hne, hslash, hcidr, if_true, if_false]

/-- C6 at `ALLOWED_HOME_IP = not-a-cidr/bogus` and the client `8.8.8.8`: denied,
with the one configuration-error entry in the log. -/
theorem malformed_cidr_denies_and_logs_once_witness :
    isAllowedIP (envWith (some "not-a-cidr/bogus")) ⟨"8.8.8.8", "/"⟩ [] =
      some (false, ["Invalid ALLOWED_HOME_IP CIDR: invalid CIDR address: not-a-cidr/bogus"]) :=
  malformed_cidr_denies_and_logs_once (envWith (some "not-a-cidr/bogus")) ⟨"8.8.8.8", "/"⟩ []
    "not-a-cidr/bogus" ⟨"CIDR address", "not-a-cidr/bogus"⟩ (by rfl) (by decide) (by rfl)
    (by decide)

theorem isAllowedIP_total (env : Env) (e : RequestEvent) (log : Log) :
    ∃ b log1, isAllowedIP env e log = some (b, log1) ∧ (b = true → log1 = log) := by
  cases hb : decide (ParseIP e.RealIP ≠ []) &&
      privateTable.any (fun n => n.Contains (ParseIP e.RealIP)) with
  | true =>
    have hp : isPrivateNetwork e.RealIP = some true := by rw [isPrivateNetwork_eq, hb]
    exact ⟨true, log, isAllowedIP_of_private env e log hp, fun _ => rfl⟩
  | false =>
    have hp : isPrivateNetwork e.RealIP = some false := by rw [isPrivateNetwork_eq, hb]
    rw [isAllowedIP_of_not_private env e log hp]
    split
    · exact ⟨false, log, rfl, fun _ => rfl⟩
    · split
      · split
        · exact ⟨false, _, rfl, fun h => Bool.noConfusion h⟩
        · exact ⟨_, log, rfl, fun _ => rfl⟩
      · exact ⟨_, log, rfl, fun _ => rfl⟩

/-- C7: `isAllowedIP` always returns a decision. When the decision is false
the middleware returns the Forbidden error with the message `Access denied
from your IP address` and nil data, whatever the next handler is (it is not
run), after logging the denial. When the decision is true `isAllowedIP` has
logged nothing and the middleware returns exactly what the next handler
returns from the unchanged log. -/
theorem middleware_follows_decision (env : Env) (re : RequestEvent) (log : Log) :
    ∃ b log1, isAllowedIP env re log = some (b, log1) ∧
      (b = false → ∀ next : Log → Outcome,
        admissionMiddleware env re next log =
          some (some (HandlerError.ForbiddenError "Access denied from your IP address" none),
            log1 ++ [denialLine re])) ∧
      (b = true → log1 = log ∧ ∀ next : Log → Outcome,
        admissionMiddleware env re next log = next log) := by
  obtain ⟨b, log1, h, hlog⟩ := isAllowedIP_total env re log
  refine ⟨b, log1, h, ?_, ?_⟩
  · intro hb next
    subst hb
    unfold admissionMiddleware
    rw [h]
    rfl
  · intro hb
    have hl := hlog hb
    subst hb
    subst hl
    refine ⟨rfl, fun next => ?_⟩
    unfold admissionMiddleware
    rw [h]

/-- C8 (as stated, refuted): with `ALLOWED_HOME_IP` set to `not-a-cidr/bogus`
the request from `8.8.8.8` for `/api/health` is denied and two entries are
appended to the log, the configuration error and then the denial. -/
theorem denial_with_malformed_cidr_logs_two_lines :
    admissionMiddleware (envWith (some "not-a-cidr/bogus")) ⟨"8.8.8.8", "/api/health"⟩
        (fun l => some (none, l)) [] =
      some (some (HandlerError.ForbiddenError "Access denied from your IP address" none),
        ["Invalid ALLOWED_HOME_IP CIDR: invalid CIDR address: not-a-cidr/bogus",
          "Access denied from IP: 8.8.8.8, Path: /api/health"]) := by
  decide

theorem occursIn_denialLine (re : RequestEvent) :
    occursIn re.RealIP (denialLine re) ∧ occursIn re.Path (denialLine re) := by
  constructor
  · exact ⟨"Access denied from IP: ", ", Path: " ++ re.Path, by
      simp only [denialLine, String.append_assoc]⟩
  · exact ⟨"Access denied from IP: " ++ re.RealIP ++ ", Path: ", "", by
      simp only [denialLine, String.append_empty]⟩

/-- C8 (amended): when a request is denied the middleware returns the
Forbidden error and the last entry it appends to the log is the denial line,
which contains the client address and the requested path. That entry is the
only one appended, unless `ALLOWED_HOME_IP` contains `/` and does not parse as
a CIDR range: then exactly one configuration-error entry precedes it. -/
theorem denial_log_lines (env : Env) (re : RequestEvent) (next : Log → Outcome) (log log1 : Log)
    (hdenied : isAllowedIP env re log = some (false, log1)) :
    admissionMiddleware env re next log =
        some (some (HandlerError.ForbiddenError "Access denied from your IP address" none),
          log1 ++ [denialLine re]) ∧
      occursIn re.RealIP (denialLine re) ∧ occursIn re.Path (denialLine re) ∧
      ((log1 = log ∧ ¬ ('/' ∈ (Getenv env "ALLOWED_HOME_IP").toList ∧
            ∃ err, ParseCIDR (Getenv env "ALLOWED_HOME_IP") = .error err)) ∨
        (log1 = log ++ [configErrorLine (Getenv env "ALLOWED_HOME_IP")] ∧
          '/' ∈ (Getenv env "ALLOWED_HOME_IP").toList ∧
            ∃ err, ParseCIDR (Getenv env "ALLOWED_HOME_IP") = .error err)) := by
  refine ⟨?_, (occursIn_denialLine re).1, (occursIn_denialLine re).2, ?_⟩
  · unfold admissionMiddleware
    rw [hdenied]
    rfl
  · cases hb : decide (ParseIP re.RealIP ≠ []) &&
        privateTable.any (fun n => n.Contains (ParseIP re.RealIP)) with
    | true =>
      have hp : isPrivateNetwork re.RealIP = some true := by rw [isPrivateNetwork_eq, hb]
      rw [isAllowedIP_of_private env re log hp] at hdenied
      cases hdenied
    | false =>
      have hp : isPrivateNetwork re.RealIP = some false := by rw [isPrivateNetwork_eq, hb]
      rw [isAllowedIP_of_not_private env re log hp] at hdenied
      split at hdenied
      · rename_i h1
        left
        injection hdenied with hd
        injection hd with _ hd
        refine ⟨hd.symm, fun h => ?_⟩
        rw [h1] at h
        simp at h
      · split at hdenied
        · rename_i h1 h2
          cases hp2 : ParseCIDR (Getenv env "ALLOWED_HOME_IP") with
          | error err =>
            rw [hp2] at hdenied
            right
            injection hdenied with hd
            injection hd with _ hd
            exact ⟨hd.symm, h2, err, rfl⟩
          | ok n =>
            rw [hp2] at hdenied
            left
            injection hdenied with hd
            injection hd with _ hd
            refine ⟨hd.symm, fun h => ?_⟩
            obtain ⟨_, err, he⟩ := h
            cases he
        · rename_i h1 h2
          left
          injection hdenied with hd
          injection hd with _ hd
          exact ⟨hd.symm, fun h => h2 h.1⟩

/-- C8 (amended) at the request from `8.8.8.8` for `/api/health` with
`ALLOWED_HOME_IP` unset: denied, one entry appended. -/
theorem denial_log_lines_witness :
    admissionMiddleware (envWith none) ⟨"8.8.8.8", "/api/health"⟩ (fun l => some (none, l)) [] =
      some (some (HandlerError.ForbiddenError "Access denied from your IP address" none),
        [] ++ [denialLine ⟨"8.8.8.8", "/api/health"⟩]) :=
  (denial_log_lines (envWith none) ⟨"8.8.8.8", "/api/health"⟩ (fun l => some (none, l)) [] []
    (by decide)).1

/-! ### The habits migration -/

theorem FieldsList_Add_mem_self (l : List Field) (f : Field) : f ∈ FieldsList.Add l f := by
  induction l with
  | nil => simp [FieldsList.Add]
  | cons g rest ih =>
    unfold FieldsList.Add
    split
    · exact List.mem_cons_self _ _
    · exact List.mem_cons_of_mem _ ih

theorem FieldsList_Add_mem_of_mem (l : List Field) (f g : Field) (hg : g ∈ l)
    (hne : g.GetName ≠ f.GetName) : g ∈ FieldsList.Add l f := by
  induction l with
  | nil => cases hg
  | cons x rest ih =>
    unfold FieldsList.Add
    rcases List.mem_cons.mp hg with rfl | hmem
    · rw [if_neg (fun h => hne h.2)]
      exact List.mem_cons_self _ _
    · split
      · exact List.mem_cons_of_mem _ hmem
      · exact List.mem_cons_of_mem _ (ih hmem)

/-- C9: the up step of the habits migration passes to the save operation a
collection named `habits` whose field list contains `name` (text, required),
`description` (text, not required), `type` (select, required), `points`
(number, not required) and `userId` (relation, required), whatever default
fields the new base collection starts with. -/
theorem habits_up_saves_declared_fields {ρ : Type} (defaults : List Field)
    (Save : Collection → ρ) :
    ∃ c : Collection, habitsUp defaults Save = Save c ∧ c.Name = "habits" ∧
      (∃ f ∈ c.Fields, f.GetName = "name" ∧ f.Typ = "text" ∧ f.Required = true) ∧
      (∃ f ∈ c.Fields, f.GetName = "description" ∧ f.Typ = "text" ∧ f.Required = false) ∧
      (∃ f ∈ c.Fields, f.GetName = "type" ∧ f.Typ = "select" ∧ f.Required = true) ∧
      (∃ f ∈ c.Fields, f.GetName = "points" ∧ f.Typ = "number" ∧ f.Required = false) ∧
      (∃ f ∈ c.Fields, f.GetName = "userId" ∧ f.Typ = "relation" ∧ f.Required = true) := by
  refine ⟨habitsCollection defaults, rfl, rfl, ?_, ?_, ?_, ?_, ?_⟩
  · refine ⟨.text { Name := "name", Required := true, Min := 1, Max := 255 }, ?_, rfl, rfl, rfl⟩
    simp only [habitsCollection]
    apply FieldsList_Add_mem_of_mem _ _ _ _ (by decide)
    apply FieldsList_Add_mem_of_mem _ _ _ _ (by decide)
    apply FieldsList_Add_mem_of_mem _ _ _ _ (by decide)
    apply FieldsList_Add_mem_of_mem _ _ _ _ (by decide)
    exact FieldsList_Add_mem_self _ _
  · refine ⟨.text { Name := "description", Required := false }, ?_, rfl, rfl, rfl⟩
    simp only [habitsCollection]
    apply FieldsList_Add_mem_of_mem _ _ _ _ (by decide)
    apply FieldsList_Add_mem_of_mem _ _ _ _ (by decide)
    apply FieldsList_Add_mem_of_mem _ _ _ _ (by decide)
    exact FieldsList_Add_mem_self _ _
  · refine ⟨.select { Name := "type", Required := true, Values := ["good", "bad"] },
      ?_, rfl, rfl, rfl⟩
    simp only [habitsCollection]
    apply FieldsList_Add_mem_of_mem _ _ _ _ (by decide)
    apply FieldsList_Add_mem_of_mem _ _ _ _ (by decide)
    exact FieldsList_Add_mem_self _ _
  · refine ⟨.number { Name := "points", Required := false }, ?_, rfl, rfl, rfl⟩
    simp only [habitsCollection]
    apply FieldsList_Add_mem_of_mem _ _ _ _ (by decide)
    exact FieldsList_Add_mem_self _ _
  · refine ⟨.relation ⟨"userId", true, "_pb_users_auth_", true⟩, ?_, rfl, rfl, rfl⟩
    simp only [habitsCollection]
    exact FieldsList_Add_mem_self _ _

/-- C10 (as stated, refuted): the address `fdaa::1` is contained both in
`fdaa::/48` and in `fc00::/7`, two different ranges of the table. -/
theorem fdaa_range_overlaps_fc00_range :
    ParseCIDR "fdaa::/48" = .ok netFdaa ∧ ParseCIDR "fc00::/7" = .ok netFc00 ∧
      netFdaa ≠ netFc00 ∧
      netFdaa.Contains (ParseIP "fdaa::1") = true ∧
      netFc00.Contains (ParseIP "fdaa::1") = true :=
  ⟨rfl, rfl, by decide, by decide, by decide⟩

/-- C10 (amended): no address is contained in two different ranges of the
table other than the pair `fdaa::/48` and `fc00::/7`; every address of
`fdaa::/48` is also in `fc00::/7`; and the order of the membership tests is
irrelevant, `isPrivateNetwork` giving the same answer for the table taken in
any order. -/
theorem private_table_overlap_and_order (ip : List Nat) :
    (∀ m ∈ privateTable, ∀ n ∈ privateTable, m ≠ n →
      ¬ (m = netFdaa ∧ n = netFc00) → ¬ (m = netFc00 ∧ n = netFdaa) →
      ¬ (m.Contains ip = true ∧ n.Contains ip = true)) ∧
    (netFdaa.Contains ip = true → netFc00.Contains ip = true) ∧
    (∀ (s : String) (t : List IPNet), t.Perm privateTable →
      isPrivateNetwork s =
        some (decide (ParseIP s ≠ []) && t.any (fun n => n.Contains (ParseIP s)))) := by
  refine ⟨?_, fdaa_subset_fc00 ip, ?_⟩
  · intro m hm n hn hne hx1 hx2 h
    have a := Contains_head m hm ip h.1
    have b := Contains_head n hn ip h.2
    have e10 : (10 : Nat) &&& 255 = 10 := by decide
    have e172 : (172 : Nat) &&& 255 = 172 := by decide
    have e192 : (192 : Nat) &&& 255 = 192 := by decide
    simp only [privateTable, List.mem_cons, List.mem_singleton, List.not_mem_nil, or_false]
      at hm hn
    rcases hm with rfl | rfl | rfl | rfl | rfl <;> rcases hn with rfl | rfl | rfl | rfl | rfl <;>
      first
      | exact hne rfl
      | exact hx1 ⟨rfl, rfl⟩
      | exact hx2 ⟨rfl, rfl⟩
      | (simp only [netFdaa, net10, net172, net192, netFc00, List.length_cons, List.length_nil,
          List.getD_cons_zero, e10, e172, e192] at a b
         omega)
  · intro s t hp
    rw [isPrivateNetwork_eq, any_eq_of_perm _ _ _ hp]

end Admin
